import Mathlib

/-!
Verification of the command-execution policy engine of this repository.

The development shallowly embeds:

* the approval-mapping layer `evaluate_with_policy` and the policy loader
  `exec_policy_for` from `codex-rs/core/src/exec_policy.rs`;
* the `define_program` builtin of the PDL compiler from
  `codex-rs/execpolicy/src/policy_parser.rs`;
* the parts of the `codex_execpolicy2` library that are only visible here
  through their call sites (`Decision`, `Evaluation`, `check_multiple`) —
  those are modelled from the specification and marked as such.

External collaborators (the shell decomposer `parse_shell_lc_plain_commands`,
the filesystem, the execpolicy2 parser state) enter the embedding as explicit
function parameters, so every theorem quantifies over their behaviour.
-/

namespace ExecPolicy

/-- The per-command verdict of the execpolicy2 engine.  The match arms in
`evaluate_with_policy` (`Decision::Forbidden`, `Decision::Prompt`,
`Decision::Allow` as unit patterns) show the variants carry no payload. -/
inductive Decision where
  | Allow
  | Prompt
  | Forbidden
  deriving DecidableEq, Repr

/-- The engine's overall answer: `Evaluation::Match { decision, .. }` or
`Evaluation::NoMatch`.  Only the `decision` field is consumed by the code
under verification. -/
inductive Evaluation where
  | Match (decision : Decision)
  | NoMatch
  deriving DecidableEq, Repr

/-- The caller's approval mode (`codex_protocol::protocol::AskForApproval`).
`Never` disables all prompting; the remaining variants are the asking
modes. -/
inductive AskForApproval where
  | UnlessTrusted
  | OnFailure
  | OnRequest
  | Never
  deriving DecidableEq, Repr

/-- The requirement handed to the spawning collaborator
(`crate::tools::sandboxing::ApprovalRequirement`), with the variants used by
`evaluate_with_policy`. -/
inductive ApprovalRequirement where
  | Skip
  | NeedsApproval (reason : Option String)
  | Forbidden (reason : String)
  deriving DecidableEq, Repr

/-- `const FORBIDDEN_REASON` in `exec_policy.rs`. -/
def FORBIDDEN_REASON : String := "execpolicy forbids this command"

/-- `const PROMPT_REASON` in `exec_policy.rs`. -/
def PROMPT_REASON : String := "execpolicy requires approval for this command"

/-- The compiled execpolicy2 policy, abstracted by its per-command evaluation
function (the `Policy::check` entry point used by the CLI front end). -/
structure Policy where
  check : List String → Evaluation

/-- Severity of an evaluation: `Forbidden` dominates `Prompt` dominates
`Allow` dominates `NoMatch`. -/
def severity : Evaluation → Nat
  | .NoMatch => 0
  | .Match .Allow => 1
  | .Match .Prompt => 2
  | .Match .Forbidden => 3

/-- Combine two evaluations, keeping the more severe one (ties keep the
accumulator). -/
def combineBySeverity (a b : Evaluation) : Evaluation :=
  if severity a < severity b then b else a

/-- Modelled from the spec: the body of `Policy::check_multiple` lives in the
`codex_execpolicy2` crate, which is absent from the sources; §4.3.2 specifies
it as "evaluate each independently, then combine by severity: `Forbidden`
dominates `Prompt` dominates `Allow` dominates `NoMatch`; the combined result
is `Match(most severe Decision)` if any inner command matched, else `NoMatch`
only if every inner command was `NoMatch`." -/
def Policy.check_multiple (p : Policy) (cmds : List (List String)) : Evaluation :=
  cmds.foldl (fun acc c => combineBySeverity acc (p.check c)) .NoMatch

/-- The approval mapper `evaluate_with_policy` from
`codex-rs/core/src/exec_policy.rs`.  The shell decomposer
`parse_shell_lc_plain_commands` (from `crate::bash`, absent from the sources)
is passed in as a function returning `Option`, exactly as it is consumed:
`parse_shell_lc_plain_commands(command).unwrap_or_else(|| vec![command.to_vec()])`. -/
def evaluate_with_policy
    (parse_shell_lc_plain_commands : List String → Option (List (List String)))
    (policy : Policy) (command : List String) (approval_policy : AskForApproval) :
    Option ApprovalRequirement :=
  let commands := (parse_shell_lc_plain_commands command).getD [command]
  let evaluation := policy.check_multiple commands
  match evaluation with
  | .Match decision =>
    match decision with
    | .Forbidden => some (.Forbidden FORBIDDEN_REASON)
    | .Prompt =>
      let reason := PROMPT_REASON
      match approval_policy with
      | .Never => some (.Forbidden reason)
      | _ => some (.NeedsApproval (some reason))
    | .Allow => some .Skip
  | .NoMatch => none

/-! ### The PDL compiler's `define_program` builtin
(`codex-rs/execpolicy/src/policy_parser.rs`). -/

/-- The typed argument matchers, as registered on the Starlark module
(`ARG_OPAQUE_VALUE`, `ARG_RFILE`, ...). -/
inductive ArgMatcher where
  | OpaqueNonFile
  | ReadableFile
  | WriteableFile
  | ReadableFiles
  | ReadableFilesOrCwd
  | PositiveInteger
  | SedCommand
  | UnverifiedVarargs
  deriving DecidableEq, Repr

/-- `OptMeta`: a `Flag` takes no value; a `Value` option carries the arg type
of its matcher.  The `arg_type` projection lives outside the sources, so the
`Value` payload is modelled by the matcher it was built from. -/
inductive OptMeta where
  | Flag
  | Value (t : ArgMatcher)
  deriving DecidableEq, Repr

/-- An option declaration (`Opt::new(name, meta, required)`). -/
structure Opt where
  name : String
  meta : OptMeta
  required : Bool
  deriving DecidableEq, Repr

/-- One accepted argument-shape definition for a named program, with the
fields passed to `ProgramSpec::new` by `define_program`.  The `HashMap` of
allowed options is modelled as an association list keyed by option name. -/
structure ProgramSpec where
  program : String
  system_path : List String
  option_bundling : Bool
  combined_format : Bool
  allowed_options : List (String × Opt)
  args : List ArgMatcher
  forbidden : Option String
  should_match : List (List String)
  should_not_match : List (List String)
  deriving DecidableEq, Repr

/-- The accumulating `PolicyBuilder`: a multimap of program specs (modelled as
an insertion-ordered association list), forbidden program regexes (pattern and
reason) and forbidden substrings. -/
structure PolicyBuilder where
  programs : List (String × ProgramSpec)
  forbidden_program_regexes : List (String × String)
  forbidden_substrings : List String
  deriving DecidableEq, Repr

/-- The named arguments of one `define_program(...)` statement, optional
exactly where the Starlark builtin's parameters are `Option`. -/
structure DefineProgramArgs where
  program : String
  system_path : Option (List String)
  option_bundling : Option Bool
  combined_format : Option Bool
  options : Option (List Opt)
  args : Option (List ArgMatcher)
  forbidden : Option String
  should_match : Option (List (List String))
  should_not_match : Option (List (List String))
  deriving Repr

/-- The duplicate-detection loop of `define_program`: insert each option into
the allowed-options map keyed by its name, failing with `duplicate flag:
{name}` when the name is already present. -/
def insertOpts (acc : List (String × Opt)) : List Opt → Except String (List (String × Opt))
  | [] => .ok acc
  | opt :: rest =>
    if acc.any (fun p => p.1 = opt.name) then
      .error ("duplicate flag: " ++ opt.name)
    else
      insertOpts (acc ++ [(opt.name, opt)]) rest

/-- The `ProgramSpec` value that `define_program` constructs from its
arguments once the options passed the duplicate check. -/
def mkProgramSpec (a : DefineProgramArgs) (allowed_options : List (String × Opt)) :
    ProgramSpec :=
  { program := a.program
    system_path := a.system_path.getD []
    option_bundling := a.option_bundling.getD false
    combined_format := a.combined_format.getD false
    allowed_options := allowed_options
    args := a.args.getD []
    forbidden := a.forbidden
    should_match := a.should_match.getD []
    should_not_match := a.should_not_match.getD [] }

/-- The `define_program` builtin: resolve defaulted arguments, reject
duplicate option names, construct the `ProgramSpec` and register it on the
builder (`MultiMap::insert` appends under the program name, preserving
insertion order). -/
def define_program (a : DefineProgramArgs) (st : PolicyBuilder) :
    Except String PolicyBuilder :=
  match insertOpts [] (a.options.getD []) with
  | .error e => .error e
  | .ok allowed =>
    .ok { st with programs := st.programs ++ [(a.program, mkProgramSpec a allowed)] }

/-- Modelled from the spec: the structural matcher of §4.3.1 and the self-test
evaluation it feeds live in the execpolicy crate's spec-construction code,
which is absent from the sources.  §4.1: "immediately after a spec is fully
constructed, the compiler evaluates each listed token sequence against that
single spec and fails the whole build if a `should_match` entry does not
match, or a `should_not_match` entry does."  The matcher itself is a
parameter. -/
def run_self_tests (matchesSpec : ProgramSpec → List String → Bool) (spec : ProgramSpec) :
    Except String Unit :=
  if spec.should_match.all (fun toks => matchesSpec spec toks) then
    if spec.should_not_match.all (fun toks => !matchesSpec spec toks) then
      .ok ()
    else
      .error "should_not_match entry matched"
  else
    .error "should_match entry did not match"

/-- Modelled from the spec: `define_program` followed by the compiled-in
self-tests of §4.1, failing the build when a self-test is violated. -/
def define_program_checked (matchesSpec : ProgramSpec → List String → Bool)
    (a : DefineProgramArgs) (st : PolicyBuilder) : Except String PolicyBuilder :=
  match insertOpts [] (a.options.getD []) with
  | .error e => .error e
  | .ok allowed =>
    let spec := mkProgramSpec a allowed
    match run_self_tests matchesSpec spec with
    | .error e => .error e
    | .ok _ => .ok { st with programs := st.programs ++ [(a.program, spec)] }

/-! ### The policy loader `exec_policy_for`
(`codex-rs/core/src/exec_policy.rs`). -/

/-- The error kinds of the loader, mirroring `ExecPolicyError` (the wrapped
`std::io::Error` payloads are dropped; the parse error keeps its message). -/
inductive ExecPolicyError where
  | ReadDir (dir : String)
  | ReadFile (path : String)
  | ParsePolicy (path : String) (msg : String)
  deriving DecidableEq, Repr

/-- What matters about an `io::Error` from `fs::read_dir`: whether its kind is
`NotFound`. -/
inductive DirError where
  | NotFound
  | Other
  deriving DecidableEq, Repr

/-- One directory entry as consumed by the loader: its path, the result of
`Path::extension()` (a standard-library function, modelled by its value) and
of `Path::is_file()`. -/
structure DirEntry where
  path : String
  ext : Option String
  isFile : Bool
  deriving DecidableEq, Repr

/-- The entry-collection loop: iterate the directory entries (each of which
may itself be an I/O error), keeping the paths of regular files whose
extension is exactly `codexpolicy`. -/
def collect_policy_paths : List (Except Unit DirEntry) → Except Unit (List String)
  | [] => .ok []
  | e :: rest =>
    match e with
    | .error u => .error u
    | .ok entry =>
      match collect_policy_paths rest with
      | .error u => .error u
      | .ok tail =>
        .ok (if entry.ext == some "codexpolicy" && entry.isFile then
               entry.path :: tail
             else tail)

/-- The parse loop: read each policy file in order and feed it to the
accumulating parser, stopping at the first read or parse failure.  The parser
state `σ` and its `parse` step come from the `codex_execpolicy2` crate and are
parameters. -/
def parse_all {σ : Type} (read_to_string : String → Except Unit String)
    (parse : σ → String → String → Except String σ) :
    σ → List String → Except ExecPolicyError σ
  | st, [] => .ok st
  | st, path :: rest =>
    match read_to_string path with
    | .error _ => .error (.ReadFile path)
    | .ok contents =>
      match parse st path contents with
      | .error e => .error (.ParsePolicy path e)
      | .ok st' => parse_all read_to_string parse st' rest

/-- The tail of the loader once the policy paths are collected: sort them
lexicographically (`policy_paths.sort()`, modelled by insertion sort under the
string order), run the parse loop, then freeze the parser state into the
policy (`parser.build()`). -/
def load_from_paths {σ : Type} (read_to_string : String → Except Unit String)
    (parse : σ → String → String → Except String σ) (parser_new : σ)
    (build : σ → Policy) (policy_paths : List String) :
    Except ExecPolicyError (Option Policy) :=
  match parse_all read_to_string parse parser_new
      (policy_paths.insertionSort (· ≤ ·)) with
  | .error e => .error e
  | .ok st => .ok (some (build st))

/-- The loader `exec_policy_for`.  The feature gate, the directory read, the
file reads and the parser are all external inputs, passed as values or
functions. -/
def exec_policy_for {σ : Type} (feature_enabled : Bool) (codex_home : String)
    (read_dir : Except DirError (List (Except Unit DirEntry)))
    (read_to_string : String → Except Unit String)
    (parser_new : σ) (parse : σ → String → String → Except String σ)
    (build : σ → Policy) : Except ExecPolicyError (Option Policy) :=
  if !feature_enabled then .ok none
  else
    match read_dir with
    | .error .NotFound => .ok none
    | .error .Other => .error (.ReadDir codex_home)
    | .ok entries =>
      match collect_policy_paths entries with
      | .error _ => .error (.ReadDir codex_home)
      | .ok policy_paths =>
        load_from_paths read_to_string parse parser_new build policy_paths

/-! ### The spec's reason-carrying decision model (for refinement comparison)

The spec's data model (§3) gives `Prompt` and `Forbidden` a reason payload and
§4.4 has the approval mapper propagate that payload into the requirement.  The
implementation's `Decision` is payload-free, so the two are compared through
an erasure map. -/

/-- Modelled from the spec, §3: "Decision: one of `Allow`, `Prompt(reason)`,
`Forbidden(reason)`." -/
inductive SpecDecision where
  | Allow
  | Prompt (reason : String)
  | Forbidden (reason : String)
  deriving DecidableEq, Repr

/-- Modelled from the spec, §3: "Evaluation: `Match(Decision)` or
`NoMatch`." -/
inductive SpecEvaluation where
  | Match (decision : SpecDecision)
  | NoMatch
  deriving DecidableEq, Repr

/-- Modelled from the spec, §4.4: the approval mapper described by the spec,
carrying each decision's reason into the requirement unchanged. -/
def spec_map_requirement : SpecEvaluation → AskForApproval → Option ApprovalRequirement
  | .NoMatch, _ => none
  | .Match .Allow, _ => some .Skip
  | .Match (.Forbidden r), _ => some (.Forbidden r)
  | .Match (.Prompt r), .Never => some (.Forbidden r)
  | .Match (.Prompt r), _ => some (.NeedsApproval (some r))

/-- Erase the spec's reason payloads to reach the implementation's
payload-free decision type. -/
def SpecDecision.erase : SpecDecision → Decision
  | .Allow => .Allow
  | .Prompt _ => .Prompt
  | .Forbidden _ => .Forbidden

/-! ### Claims about the Approval Mapper -/

/-- C1: for every evaluation `Match(Prompt)`: under approval mode `Never` the
mapper returns a `Forbidden` requirement; under every asking mode it returns
`NeedsApproval` with a `Some` reason; it never returns `Skip` for a `Prompt`
decision under any approval mode. -/
theorem C1_prompt_mapping
    (dec : List String → Option (List (List String))) (p : Policy)
    (cmd : List String) (mode : AskForApproval)
    (h : p.check_multiple ((dec cmd).getD [cmd]) = .Match .Prompt) :
    (mode = .Never →
      evaluate_with_policy dec p cmd mode = some (.Forbidden PROMPT_REASON)) ∧
    (mode ≠ .Never →
      evaluate_with_policy dec p cmd mode
        = some (.NeedsApproval (some PROMPT_REASON))) ∧
    evaluate_with_policy dec p cmd mode ≠ some .Skip := by
  cases mode <;> simp [evaluate_with_policy, h]

/-- C1 witness: a concrete prompt-valued policy under the asking mode
`OnRequest` yields `NeedsApproval(Some PROMPT_REASON)`. -/
theorem C1_prompt_mapping_witness :
    evaluate_with_policy (fun _ => none) ⟨fun _ => .Match .Prompt⟩ ["x"]
        .OnRequest = some (.NeedsApproval (some PROMPT_REASON)) :=
  (C1_prompt_mapping (fun _ => none) ⟨fun _ => .Match .Prompt⟩ ["x"] .OnRequest
      (by decide)).2.1 (by decide)

/-- C2 counterexample: the claim says the requirement carries the reason
attached to the decision by the policy.  On the decision that the spec's own
concrete scenario 1 renders as `Forbidden("no deletes")`, the implementation
returns the fixed constant `FORBIDDEN_REASON`, not `"no deletes"`: the
implementation's `Decision` has no reason payload to propagate. -/
theorem C2_reason_counterexample :
    spec_map_requirement (.Match (.Forbidden "no deletes")) .OnRequest
        = some (.Forbidden "no deletes") ∧
    SpecDecision.erase (.Forbidden "no deletes") = .Forbidden ∧
    evaluate_with_policy (fun _ => none) ⟨fun _ => .Match .Forbidden⟩
        ["rm", "-rf", "/tmp"] .OnRequest
        = some (.Forbidden FORBIDDEN_REASON) ∧
    ApprovalRequirement.Forbidden FORBIDDEN_REASON
        ≠ ApprovalRequirement.Forbidden "no deletes" := by
  refine ⟨rfl, rfl, rfl, ?_⟩
  decide

/-- C2 amended: the requirement's reason is not taken from the decision (which
carries none); a `Match(Forbidden)` evaluation always yields `Forbidden` with
the fixed constant `FORBIDDEN_REASON`, and a `Match(Prompt)` evaluation under
an asking mode always yields `NeedsApproval(Some PROMPT_REASON)`. -/
theorem C2_constant_reasons
    (dec : List String → Option (List (List String))) (p : Policy)
    (cmd : List String) (mode : AskForApproval) :
    (p.check_multiple ((dec cmd).getD [cmd]) = .Match .Forbidden →
      evaluate_with_policy dec p cmd mode = some (.Forbidden FORBIDDEN_REASON)) ∧
    (p.check_multiple ((dec cmd).getD [cmd]) = .Match .Prompt → mode ≠ .Never →
      evaluate_with_policy dec p cmd mode
        = some (.NeedsApproval (some PROMPT_REASON))) := by
  constructor
  · intro h
    simp [evaluate_with_policy, h]
  · intro h hm
    cases mode with
    | Never => exact absurd rfl hm
    | UnlessTrusted => simp [evaluate_with_policy, h]
    | OnFailure => simp [evaluate_with_policy, h]
    | OnRequest => simp [evaluate_with_policy, h]

/-- C2 amended witness: a concrete forbidden-valued policy yields the constant
`FORBIDDEN_REASON`. -/
theorem C2_constant_reasons_witness :
    evaluate_with_policy (fun _ => none) ⟨fun _ => .Match .Forbidden⟩ ["x"]
        .OnRequest = some (.Forbidden FORBIDDEN_REASON) :=
  (C2_constant_reasons (fun _ => none) ⟨fun _ => .Match .Forbidden⟩ ["x"]
      .OnRequest).1 (by decide)

/-- C4: a `NoMatch` evaluation communicates no requirement (the mapper returns
`None`), and a `Match(Allow)` evaluation returns the `Skip` requirement, under
every approval mode. -/
theorem C4_nomatch_and_allow
    (dec : List String → Option (List (List String))) (p : Policy)
    (cmd : List String) (mode : AskForApproval) :
    (p.check_multiple ((dec cmd).getD [cmd]) = .NoMatch →
      evaluate_with_policy dec p cmd mode = none) ∧
    (p.check_multiple ((dec cmd).getD [cmd]) = .Match .Allow →
      evaluate_with_policy dec p cmd mode = some .Skip) := by
  constructor
  · intro h
    simp [evaluate_with_policy, h]
  · intro h
    simp [evaluate_with_policy, h]

/-- C4 witness: a concrete never-matching policy yields no requirement. -/
theorem C4_nomatch_and_allow_witness :
    evaluate_with_policy (fun _ => none) ⟨fun _ => .NoMatch⟩ ["x"]
        .OnRequest = none :=
  (C4_nomatch_and_allow (fun _ => none) ⟨fun _ => .NoMatch⟩ ["x"]
      .OnRequest).1 (by decide)

/-- C5: when shell decomposition is not possible (the decomposer returns
`None`), evaluation proceeds exactly as if the original argv had been
decomposed into the singleton list containing it as one opaque command;
decomposition failure never makes evaluation fail (the mapper is total and
`None` in its result means "no requirement", not an error). -/
theorem C5_decomposition_failure_is_not_fatal
    (dec : List String → Option (List (List String))) (p : Policy)
    (cmd : List String) (mode : AskForApproval)
    (h : dec cmd = none) :
    evaluate_with_policy dec p cmd mode
      = evaluate_with_policy (fun c => some [c]) p cmd mode := by
  simp [evaluate_with_policy, h]

/-- C5 witness: at a concrete argv whose decomposition fails, the evaluation
equals the singleton-decomposition evaluation. -/
theorem C5_decomposition_failure_is_not_fatal_witness :
    evaluate_with_policy (fun _ => none) ⟨fun _ => .Match .Allow⟩
        ["bash", "-lc", "(subshell)"] .OnRequest
      = evaluate_with_policy (fun c => some [c]) ⟨fun _ => .Match .Allow⟩
        ["bash", "-lc", "(subshell)"] .OnRequest :=
  C5_decomposition_failure_is_not_fatal (fun _ => none) ⟨fun _ => .Match .Allow⟩
    ["bash", "-lc", "(subshell)"] .OnRequest rfl

/-! ### The severity combinator `check_multiple` (claim C3) -/

/-- An evaluation has severity zero exactly when it is `NoMatch`. -/
theorem severity_eq_zero_iff {e : Evaluation} : severity e = 0 ↔ e = .NoMatch := by
  cases e with
  | NoMatch => simp [severity]
  | Match d => cases d <;> simp [severity]

/-- The severity of the running fold is the running maximum of the per-command
severities. -/
theorem severity_foldl (p : Policy) (cmds : List (List String)) (e : Evaluation) :
    severity (cmds.foldl (fun acc c => combineBySeverity acc (p.check c)) e)
      = (cmds.map (fun c => severity (p.check c))).foldl max (severity e) := by
  induction cmds generalizing e with
  | nil => rfl
  | cons c rest ih =>
    rw [List.foldl_cons, List.map_cons, List.foldl_cons, ih]
    congr 1
    unfold combineBySeverity
    split <;> omega

/-- A `Nat.max` fold is bounded by `k` exactly when the seed and every element
are. -/
theorem foldl_max_le {l : List ℕ} {a k : ℕ} :
    l.foldl max a ≤ k ↔ a ≤ k ∧ ∀ x ∈ l, x ≤ k := by
  induction l generalizing a with
  | nil => simp
  | cons x xs ih =>
    rw [List.foldl_cons, ih]
    constructor
    · rintro ⟨hm, hall⟩
      refine ⟨le_trans (le_max_left a x) hm, fun y hy => ?_⟩
      rcases List.mem_cons.mp hy with h | h
      · exact h ▸ le_trans (le_max_right a x) hm
      · exact hall y h
    · rintro ⟨ha, hall⟩
      exact ⟨max_le ha (hall x (List.mem_cons_self x xs)), fun y hy =>
        hall y (List.mem_cons_of_mem x hy)⟩

/-- The fold of `combineBySeverity` returns either its seed or the checked
evaluation of some command in the list. -/
theorem foldl_combine_attained (p : Policy) (l : List (List String)) (e : Evaluation) :
    l.foldl (fun acc c => combineBySeverity acc (p.check c)) e = e ∨
      ∃ c ∈ l, l.foldl (fun acc c => combineBySeverity acc (p.check c)) e
        = p.check c := by
  induction l generalizing e with
  | nil => exact Or.inl rfl
  | cons x xs ih =>
    rw [List.foldl_cons]
    rcases ih (combineBySeverity e (p.check x)) with h | ⟨c, hc, h⟩
    · rw [h]
      unfold combineBySeverity
      split
      · exact Or.inr ⟨x, List.mem_cons_self x xs, rfl⟩
      · exact Or.inl rfl
    · exact Or.inr ⟨c, List.mem_cons_of_mem x hc, h⟩

/-- If every command in the list has no match, the fold stays `NoMatch`. -/
theorem foldl_combine_nomatch (p : Policy) (l : List (List String))
    (h : ∀ c ∈ l, p.check c = .NoMatch) :
    l.foldl (fun acc c => combineBySeverity acc (p.check c)) .NoMatch = .NoMatch := by
  induction l with
  | nil => rfl
  | cons x xs ih =>
    rw [List.foldl_cons, h x (List.mem_cons_self x xs)]
    show xs.foldl _ (combineBySeverity .NoMatch .NoMatch) = .NoMatch
    exact ih (fun c hc => h c (List.mem_cons_of_mem x hc))

/-- A concrete per-command checker used to instantiate the combinator on the
spec's four examples: the token `allow` is allowed, `prompt` prompts,
`forbid` is forbidden and anything else is no opinion. -/
def demoCheck : List String → Evaluation
  | ["allow"] => .Match .Allow
  | ["prompt"] => .Match .Prompt
  | ["forbid"] => .Match .Forbidden
  | _ => .NoMatch

/-- C3: `check_multiple` is the pointwise maximum-severity combinator: the
combined severity is the maximum of the per-command severities (`Forbidden` >
`Prompt` > `Allow` > `NoMatch`), the result is `NoMatch` exactly when every
inner command is `NoMatch`, it dominates every inner command, it is attained
by some inner command whenever anything matched, and the spec's four concrete
instances hold. -/
theorem C3_check_multiple_max_severity (p : Policy) (cmds : List (List String)) :
    severity (p.check_multiple cmds)
        = (cmds.map (fun c => severity (p.check c))).foldl max 0 ∧
    (p.check_multiple cmds = .NoMatch ↔ ∀ c ∈ cmds, p.check c = .NoMatch) ∧
    (∀ c ∈ cmds, severity (p.check c) ≤ severity (p.check_multiple cmds)) ∧
    (p.check_multiple cmds = .NoMatch ∨
      ∃ c ∈ cmds, p.check_multiple cmds = p.check c) ∧
    (Policy.check_multiple ⟨demoCheck⟩ [["allow"], ["prompt"]] = .Match .Prompt ∧
     Policy.check_multiple ⟨demoCheck⟩ [["allow"], ["forbid"]] = .Match .Forbidden ∧
     Policy.check_multiple ⟨demoCheck⟩ [["pwd"], ["ls"]] = .NoMatch ∧
     Policy.check_multiple ⟨demoCheck⟩ [["pwd"], ["allow"]] = .Match .Allow) := by
  have hsev : severity (p.check_multiple cmds)
      = (cmds.map (fun c => severity (p.check c))).foldl max 0 :=
    severity_foldl p cmds .NoMatch
  have hdom : ∀ c ∈ cmds, severity (p.check c) ≤ severity (p.check_multiple cmds) := by
    intro c hc
    rw [hsev]
    exact (foldl_max_le.mp le_rfl).2 _ (List.mem_map_of_mem _ hc)
  refine ⟨hsev, ?_, hdom, foldl_combine_attained p cmds .NoMatch, by decide, by decide,
    by decide, by decide⟩
  constructor
  · intro h c hc
    have := hdom c hc
    rw [h] at this
    exact severity_eq_zero_iff.mp (Nat.le_zero.mp this)
  · intro h
    exact foldl_combine_nomatch p cmds h

/-- C3 witness: instantiating the combinator theorem at the demo policy
yields the concrete `[Allow, Prompt] = Prompt` instance. -/
theorem C3_check_multiple_max_severity_witness :
    Policy.check_multiple ⟨demoCheck⟩ [["allow"], ["prompt"]] = .Match .Prompt :=
  (C3_check_multiple_max_severity ⟨demoCheck⟩ []).2.2.2.2.1

/-! ### Duplicate option detection in `define_program` (claim C6) -/

/-- When the accumulated keys and the remaining option names are jointly
duplicate-free, the insertion loop succeeds and appends every option keyed by
its name. -/
theorem insertOpts_ok (opts : List Opt) (acc : List (String × Opt))
    (h : (acc.map Prod.fst ++ opts.map Opt.name).Nodup) :
    insertOpts acc opts = .ok (acc ++ opts.map (fun o => (o.name, o))) := by
  induction opts generalizing acc with
  | nil => simp [insertOpts]
  | cons o rest ih =>
    have hname : o.name ∉ acc.map Prod.fst := by
      rw [List.nodup_append] at h
      intro hmem
      exact h.2.2 hmem (by simp)
    have hany : acc.any (fun p => p.1 = o.name) = false := by
      rw [List.any_eq_false]
      intro q hq
      simp only [decide_eq_true_eq]
      intro hqe
      exact hname (hqe ▸ List.mem_map_of_mem Prod.fst hq)
    have hstep : insertOpts acc (o :: rest)
        = insertOpts (acc ++ [(o.name, o)]) rest := by
      rw [insertOpts, hany]
      simp
    rw [hstep, ih (acc ++ [(o.name, o)]) (by simpa using h)]
    simp

/-- When the accumulated keys are duplicate-free but joining the remaining
option names introduces a duplicate, the insertion loop fails with a
`duplicate flag` error naming a name that occurs at least twice. -/
theorem insertOpts_dup (opts : List Opt) (acc : List (String × Opt))
    (hacc : (acc.map Prod.fst).Nodup)
    (h : ¬ (acc.map Prod.fst ++ opts.map Opt.name).Nodup) :
    ∃ n, (acc.map Prod.fst ++ opts.map Opt.name).count n ≥ 2 ∧
      insertOpts acc opts = .error ("duplicate flag: " ++ n) := by
  induction opts generalizing acc with
  | nil => simp at h; exact absurd hacc h
  | cons o rest ih =>
    by_cases hmem : o.name ∈ acc.map Prod.fst
    · refine ⟨o.name, ?_, ?_⟩
      · have h1 : 1 ≤ (acc.map Prod.fst).count o.name :=
          List.count_pos_iff.mpr hmem
        rw [List.map_cons, List.count_append, List.count_cons_self]
        omega
      · have hany : acc.any (fun p => p.1 = o.name) = true := by
          rw [List.any_eq_true]
          obtain ⟨q, hq, hqe⟩ := List.mem_map.mp hmem
          exact ⟨q, hq, by simp [hqe]⟩
        rw [insertOpts, hany]
        simp
    · have hany : acc.any (fun p => p.1 = o.name) = false := by
        rw [List.any_eq_false]
        intro q hq
        simp only [decide_eq_true_eq]
        intro hqe
        exact hmem (hqe ▸ List.mem_map_of_mem Prod.fst hq)
      have hstep : insertOpts acc (o :: rest)
          = insertOpts (acc ++ [(o.name, o)]) rest := by
        rw [insertOpts, hany]
        simp
      have hacc' : ((acc ++ [(o.name, o)]).map Prod.fst).Nodup := by
        rw [List.map_append, List.nodup_append]
        exact ⟨hacc, List.nodup_singleton _, by
          intro a ha hb
          simp only [List.map_cons, List.map_nil, List.mem_singleton] at hb
          exact hmem (hb ▸ ha)⟩
      have hkey : (acc ++ [(o.name, o)]).map Prod.fst ++ rest.map Opt.name
          = acc.map Prod.fst ++ (o :: rest).map Opt.name := by
        simp
      have h' : ¬ ((acc ++ [(o.name, o)]).map Prod.fst ++ rest.map Opt.name).Nodup := by
        rw [hkey]; exact h
      obtain ⟨n, hcount, herr⟩ := ih (acc ++ [(o.name, o)]) hacc' h'
      refine ⟨n, ?_, hstep ▸ herr⟩
      rw [hkey] at hcount
      exact hcount

/-- C6: a `define_program` whose options list carries two options with the
same name fails with a `duplicate flag` error naming a duplicated flag; one
with all-distinct option names registers exactly one `ProgramSpec` under its
program name (the builder's multimap grows by exactly that one entry). -/
theorem C6_define_program_duplicates (a : DefineProgramArgs) (st : PolicyBuilder) :
    (((a.options.getD []).map Opt.name).Nodup →
      define_program a st = .ok { st with
        programs := st.programs ++ [(a.program,
          mkProgramSpec a ((a.options.getD []).map (fun o => (o.name, o))))] }) ∧
    (¬ ((a.options.getD []).map Opt.name).Nodup →
      ∃ n, ((a.options.getD []).map Opt.name).count n ≥ 2 ∧
        define_program a st = .error ("duplicate flag: " ++ n)) := by
  constructor
  · intro h
    have hok := insertOpts_ok (a.options.getD []) [] (by simpa using h)
    rw [define_program, hok]
    simp
  · intro h
    obtain ⟨n, hcount, herr⟩ :=
      insertOpts_dup (a.options.getD []) [] List.nodup_nil (by simpa using h)
    refine ⟨n, by simpa using hcount, ?_⟩
    rw [define_program, herr]

/-- A concrete `define_program("tar", options=[flag("-v"), flag("-f")])`
statement, used to witness the duplicate-free branch of C6. -/
def tarArgs : DefineProgramArgs :=
  { program := "tar", system_path := none, option_bundling := none,
    combined_format := none,
    options := some [⟨"-v", .Flag, false⟩, ⟨"-f", .Flag, false⟩],
    args := none, forbidden := none, should_match := none,
    should_not_match := none }

/-- C6 witness: a call with the two distinct flags `-v` and `-f` registers
exactly one spec on an empty builder. -/
theorem C6_define_program_duplicates_witness :
    define_program tarArgs ⟨[], [], []⟩
      = .ok { programs := [("tar",
                mkProgramSpec tarArgs
                  [("-v", ⟨"-v", .Flag, false⟩), ("-f", ⟨"-f", .Flag, false⟩)])],
              forbidden_program_regexes := [], forbidden_substrings := [] } :=
  (C6_define_program_duplicates tarArgs ⟨[], [], []⟩).1 (by decide)

/-! ### Embedded self-tests (claim C7) -/

/-- Unfolding `define_program_checked` once the duplicate check succeeded. -/
theorem define_program_checked_ok_step (m : ProgramSpec → List String → Bool)
    (a : DefineProgramArgs) (st : PolicyBuilder) (allowed : List (String × Opt))
    (hins : insertOpts [] (a.options.getD []) = .ok allowed) :
    define_program_checked m a st =
      match run_self_tests m (mkProgramSpec a allowed) with
      | .error e => .error e
      | .ok _ => .ok { st with
          programs := st.programs ++ [(a.program, mkProgramSpec a allowed)] } := by
  unfold define_program_checked
  rw [hins]

/-- Unfolding `define_program_checked` when the duplicate check failed. -/
theorem define_program_checked_err_step (m : ProgramSpec → List String → Bool)
    (a : DefineProgramArgs) (st : PolicyBuilder) (e : String)
    (hins : insertOpts [] (a.options.getD []) = .error e) :
    define_program_checked m a st = .error e := by
  unfold define_program_checked
  rw [hins]

/-- The self-test step succeeds exactly when every `should_match` sequence
matches the spec and no `should_not_match` sequence does. -/
theorem run_self_tests_ok_iff (m : ProgramSpec → List String → Bool)
    (spec : ProgramSpec) :
    run_self_tests m spec = .ok () ↔
      ((∀ toks ∈ spec.should_match, m spec toks = true) ∧
       (∀ toks ∈ spec.should_not_match, m spec toks = false)) := by
  unfold run_self_tests
  constructor
  · intro h
    by_cases hA : spec.should_match.all (fun toks => m spec toks) = true
    · rw [if_pos hA] at h
      by_cases hB : spec.should_not_match.all (fun toks => !m spec toks) = true
      · refine ⟨fun t ht => List.all_eq_true.mp hA t ht, fun t ht => ?_⟩
        have := List.all_eq_true.mp hB t ht
        simpa using this
      · rw [if_neg hB] at h
        exact absurd h (by simp)
    · rw [if_neg hA] at h
      exact absurd h (by simp)
  · rintro ⟨h1, h2⟩
    have hA : spec.should_match.all (fun toks => m spec toks) = true :=
      List.all_eq_true.mpr h1
    have hB : spec.should_not_match.all (fun toks => !m spec toks) = true :=
      List.all_eq_true.mpr (fun t ht => by simp [h2 t ht])
    rw [if_pos hA, if_pos hB]

/-- The self-test step fails whenever a `should_match` sequence does not match
or a `should_not_match` sequence matches. -/
theorem run_self_tests_err (m : ProgramSpec → List String → Bool)
    (spec : ProgramSpec)
    (h : (∃ toks ∈ spec.should_match, m spec toks = false) ∨
         (∃ toks ∈ spec.should_not_match, m spec toks = true)) :
    ∃ e, run_self_tests m spec = .error e := by
  unfold run_self_tests
  by_cases hA : spec.should_match.all (fun toks => m spec toks) = true
  · rw [if_pos hA]
    by_cases hB : spec.should_not_match.all (fun toks => !m spec toks) = true
    · exfalso
      rcases h with ⟨t, ht, hf⟩ | ⟨t, ht, htr⟩
      · have := List.all_eq_true.mp hA t ht
        rw [hf] at this
        exact Bool.false_ne_true this
      · have := List.all_eq_true.mp hB t ht
        rw [htr] at this
        exact Bool.false_ne_true this
    · rw [if_neg hB]
      exact ⟨_, rfl⟩
  · rw [if_neg hA]
    exact ⟨_, rfl⟩

/-- C7: for every structural matcher, a `define_program` whose build succeeds
has registered a spec all of whose `should_match` sequences match it and none
of whose `should_not_match` sequences do; and whenever a self-test is
violated (after a successful duplicate check), the build fails. -/
theorem C7_embedded_self_tests (m : ProgramSpec → List String → Bool)
    (a : DefineProgramArgs) (st : PolicyBuilder) :
    (∀ st', define_program_checked m a st = .ok st' →
      ∃ spec, st'.programs = st.programs ++ [(a.program, spec)] ∧
        (∀ toks ∈ spec.should_match, m spec toks = true) ∧
        (∀ toks ∈ spec.should_not_match, m spec toks = false)) ∧
    (∀ allowed, insertOpts [] (a.options.getD []) = .ok allowed →
      ((∃ toks ∈ (mkProgramSpec a allowed).should_match,
          m (mkProgramSpec a allowed) toks = false) ∨
       (∃ toks ∈ (mkProgramSpec a allowed).should_not_match,
          m (mkProgramSpec a allowed) toks = true)) →
      ∃ e, define_program_checked m a st = .error e) := by
  constructor
  · intro st' h
    cases hins : insertOpts [] (a.options.getD []) with
    | error e =>
      rw [define_program_checked_err_step m a st e hins] at h
      exact absurd h (by simp)
    | ok allowed =>
      rw [define_program_checked_ok_step m a st allowed hins] at h
      cases hrun : run_self_tests m (mkProgramSpec a allowed) with
      | error e =>
        rw [hrun] at h
        exact absurd h (by simp)
      | ok u =>
        cases u
        rw [hrun] at h
        simp only [Except.ok.injEq] at h
        obtain ⟨htests1, htests2⟩ := (run_self_tests_ok_iff m _).mp hrun
        exact ⟨mkProgramSpec a allowed, by rw [← h], htests1, htests2⟩
  · intro allowed hins hviol
    obtain ⟨e, he⟩ := run_self_tests_err m (mkProgramSpec a allowed) hviol
    rw [define_program_checked_ok_step m a st allowed hins, he]
    exact ⟨e, rfl⟩

/-- A `define_program` statement carrying one `should_match` and one
`should_not_match` self-test, used to witness C7. -/
def selfTestArgs : DefineProgramArgs :=
  { program := "p", system_path := none, option_bundling := none,
    combined_format := none, options := none, args := none, forbidden := none,
    should_match := some [["ok"]], should_not_match := some [["bad"]] }

/-- A concrete structural matcher for the C7 witness: only the token list
`["ok"]` matches. -/
def selfTestMatcher : ProgramSpec → List String → Bool :=
  fun _ toks => toks == ["ok"]

/-- C7 witness: running the checked build on the concrete statement yields a
registered spec whose self-tests all pass under the concrete matcher. -/
theorem C7_embedded_self_tests_witness :
    ∃ spec, (PolicyBuilder.mk [("p", mkProgramSpec selfTestArgs [])] [] []).programs
        = (PolicyBuilder.mk [] [] []).programs ++ [(selfTestArgs.program, spec)] ∧
      (∀ toks ∈ spec.should_match, selfTestMatcher spec toks = true) ∧
      (∀ toks ∈ spec.should_not_match, selfTestMatcher spec toks = false) :=
  (C7_embedded_self_tests selfTestMatcher selfTestArgs ⟨[], [], []⟩).1
    ⟨[("p", mkProgramSpec selfTestArgs [])], [], []⟩ (by rfl)

/-! ### The loader: fail-closed, deterministic, absence-tolerant
(claims C8, C9, C10) -/

/-- Whether one directory entry was itself an I/O error. -/
def entryFailed : Except Unit DirEntry → Bool
  | .error _ => true
  | .ok _ => false

/-- The selection made by the collection loop: the path of a regular file
whose extension is exactly `codexpolicy`, nothing otherwise. -/
def selectPolicyPath : Except Unit DirEntry → Option String
  | .error _ => none
  | .ok en =>
    if en.ext == some "codexpolicy" && en.isFile then some en.path else none

/-- Unfolding the selection on a successfully listed entry. -/
theorem selectPolicyPath_ok (en : DirEntry) :
    selectPolicyPath (Except.ok en)
      = if en.ext == some "codexpolicy" && en.isFile then some en.path
        else none := rfl

/-- Closed form of the collection loop: it fails when any entry failed, and
otherwise selects exactly the qualifying entries' paths in listing order. -/
theorem collect_policy_paths_eq (entries : List (Except Unit DirEntry)) :
    collect_policy_paths entries =
      if entries.any entryFailed then .error ()
      else .ok (entries.filterMap selectPolicyPath) := by
  induction entries with
  | nil => rfl
  | cons e rest ih =>
    cases e with
    | error u =>
      cases u
      simp [collect_policy_paths, entryFailed]
    | ok en =>
      rw [collect_policy_paths, ih]
      by_cases hfail : rest.any entryFailed = true
      · rw [if_pos hfail, if_pos (show (Except.ok en :: rest).any entryFailed = true
          by simp [entryFailed, hfail])]
      · rw [if_neg hfail, if_neg (show ¬ ((Except.ok en :: rest).any entryFailed = true)
          by simp [entryFailed, hfail])]
        show Except.ok (if (en.ext == some "codexpolicy" && en.isFile) = true
              then en.path :: rest.filterMap selectPolicyPath
              else rest.filterMap selectPolicyPath)
            = Except.ok ((Except.ok en :: rest).filterMap selectPolicyPath)
        rw [List.filterMap_cons, selectPolicyPath_ok]
        by_cases hsel : (en.ext == some "codexpolicy" && en.isFile) = true
        · rw [if_pos hsel, if_pos hsel]
        · rw [if_neg hsel, if_neg hsel]

/-- `List.any` is invariant under permutation. -/
theorem any_eq_of_perm {α : Type} {l1 l2 : List α} (h : l1.Perm l2)
    (f : α → Bool) : l1.any f = l2.any f := by
  cases hb : l2.any f with
  | false =>
    rw [List.any_eq_false] at hb ⊢
    exact fun x hx => hb x (h.mem_iff.mp hx)
  | true =>
    rw [List.any_eq_true] at hb ⊢
    obtain ⟨x, hx, hfx⟩ := hb
    exact ⟨x, h.mem_iff.mpr hx, hfx⟩

/-- Sorting two permutations of the same multiset of paths yields the same
list: lexicographic order on strings is total, transitive and
antisymmetric. -/
theorem insertionSort_eq_of_perm {l1 l2 : List String} (h : l1.Perm l2) :
    l1.insertionSort (· ≤ ·) = l2.insertionSort (· ≤ ·) :=
  List.eq_of_perm_of_sorted
    ((List.perm_insertionSort _ _).trans (h.trans (List.perm_insertionSort _ _).symm))
    (List.sorted_insertionSort _ _) (List.sorted_insertionSort _ _)

/-- The loader tail is invariant under permutation of the collected paths. -/
theorem load_from_paths_perm {σ : Type} (r : String → Except Unit String)
    (parse : σ → String → String → Except String σ) (pnew : σ)
    (build : σ → Policy) {l1 l2 : List String} (h : l1.Perm l2) :
    load_from_paths r parse pnew build l1 = load_from_paths r parse pnew build l2 := by
  unfold load_from_paths
  rw [insertionSort_eq_of_perm h]

/-- If the parse loop succeeds, every path in the list was read
successfully. -/
theorem parse_all_ok_reads {σ : Type} (r : String → Except Unit String)
    (parse : σ → String → String → Except String σ) (paths : List String)
    (st st' : σ) (h : parse_all r parse st paths = .ok st') :
    ∀ p ∈ paths, ∃ c, r p = .ok c := by
  induction paths generalizing st with
  | nil =>
    intro p hp
    exact absurd hp (List.not_mem_nil p)
  | cons q rest ih =>
    intro p hp
    unfold parse_all at h
    split at h
    · exact absurd h (by simp)
    · rename_i contents hr
      split at h
      · exact absurd h (by simp)
      · rename_i st2 hp2
        rcases List.mem_cons.mp hp with rfl | hmem
        · exact ⟨contents, hr⟩
        · exact ih st2 h p hmem

/-- If reading any one listed path fails, the parse loop fails. -/
theorem parse_all_err_of_read_err {σ : Type} (r : String → Except Unit String)
    (parse : σ → String → String → Except String σ) (paths : List String)
    (st : σ) (p : String) (hp : p ∈ paths) (hr : r p = .error ()) :
    ∃ e, parse_all r parse st paths = .error e := by
  induction paths generalizing st with
  | nil => exact absurd hp (List.not_mem_nil p)
  | cons q rest ih =>
    cases hq : r q with
    | error u =>
      refine ⟨.ReadFile q, ?_⟩
      unfold parse_all
      rw [hq]
    | ok contents =>
      rcases List.mem_cons.mp hp with rfl | hmem
      · rw [hr] at hq
        exact absurd hq (by simp)
      · cases hparse : parse st q contents with
        | error e =>
          refine ⟨.ParsePolicy q e, ?_⟩
          unfold parse_all
          rw [hq]
          show (match parse st q contents with
                | .error e => Except.error (ExecPolicyError.ParsePolicy q e)
                | .ok st2 => parse_all r parse st2 rest)
              = Except.error (ExecPolicyError.ParsePolicy q e)
          rw [hparse]
        | ok st2 =>
          obtain ⟨e, he⟩ := ih st2 hmem
          refine ⟨e, ?_⟩
          unfold parse_all
          rw [hq]
          show (match parse st q contents with
                | .error e => Except.error (ExecPolicyError.ParsePolicy q e)
                | .ok st2 => parse_all r parse st2 rest)
              = Except.error e
          rw [hparse]
          exact he

/-- Reduction of the loader on a successfully collected set of paths. -/
theorem exec_policy_for_ok_collect {σ : Type} (home : String)
    (entries : List (Except Unit DirEntry)) (paths : List String)
    (r : String → Except Unit String) (pnew : σ)
    (parse : σ → String → String → Except String σ) (build : σ → Policy)
    (hcollect : collect_policy_paths entries = .ok paths) :
    exec_policy_for true home (.ok entries) r pnew parse build
      = load_from_paths r parse pnew build paths := by
  show (match collect_policy_paths entries with
        | .error _ => Except.error (ExecPolicyError.ReadDir home)
        | .ok policy_paths => load_from_paths r parse pnew build policy_paths)
      = load_from_paths r parse pnew build paths
  rw [hcollect]

/-- C8: loading is fail-closed and atomic.  Under a collected set of policy
paths: if reading any one file fails the whole load returns an error; if the
sequential parse loop fails (a parse failure at whichever file it reaches),
the whole load returns that very error; the load never returns `Ok(None)`
once the directory was listed — a failure can never look like "no policy";
and a load that returns a policy has successfully read every collected file
and built the policy from the full parse of all of them — never from a
subset. -/
theorem C8_fail_closed_loading {σ : Type} (home : String)
    (entries : List (Except Unit DirEntry)) (paths : List String)
    (r : String → Except Unit String) (pnew : σ)
    (parse : σ → String → String → Except String σ) (build : σ → Policy)
    (hcollect : collect_policy_paths entries = .ok paths) :
    ((∃ p ∈ paths, r p = .error ()) →
      ∃ e, exec_policy_for true home (.ok entries) r pnew parse build
        = .error e) ∧
    (∀ e, parse_all r parse pnew (paths.insertionSort (· ≤ ·)) = .error e →
      exec_policy_for true home (.ok entries) r pnew parse build = .error e) ∧
    (exec_policy_for true home (.ok entries) r pnew parse build ≠ .ok none) ∧
    (∀ pol, exec_policy_for true home (.ok entries) r pnew parse build
        = .ok (some pol) →
      (∀ p ∈ paths, ∃ c, r p = .ok c) ∧
      ∃ st, parse_all r parse pnew (paths.insertionSort (· ≤ ·)) = .ok st ∧
        pol = build st) := by
  have hred := exec_policy_for_ok_collect home entries paths r pnew parse build
    hcollect
  refine ⟨?_, ?_, ?_, ?_⟩
  · rintro ⟨p, hp, hrp⟩
    have hpsorted : p ∈ paths.insertionSort (· ≤ ·) :=
      (List.perm_insertionSort _ _).mem_iff.mpr hp
    obtain ⟨e, he⟩ := parse_all_err_of_read_err r parse
      (paths.insertionSort (· ≤ ·)) pnew p hpsorted hrp
    refine ⟨e, ?_⟩
    rw [hred]
    unfold load_from_paths
    rw [he]
  · intro e he
    rw [hred]
    unfold load_from_paths
    rw [he]
  · rw [hred]
    unfold load_from_paths
    cases hpa : parse_all r parse pnew (paths.insertionSort (· ≤ ·)) with
    | error e => simp
    | ok st => simp
  · intro pol h
    rw [hred] at h
    unfold load_from_paths at h
    cases hpa : parse_all r parse pnew (paths.insertionSort (· ≤ ·)) with
    | error e =>
      rw [hpa] at h
      exact absurd h (by simp)
    | ok st =>
      rw [hpa] at h
      simp only [Except.ok.injEq, Option.some.injEq] at h
      refine ⟨fun p hp => ?_, st, rfl, h.symm⟩
      exact parse_all_ok_reads r parse _ pnew st hpa p
        ((List.perm_insertionSort _ _).mem_iff.mpr hp)

/-- C8 witness: with one collected policy file whose read fails, the whole
load errors. -/
theorem C8_fail_closed_loading_witness :
    ∃ e, exec_policy_for true "home"
        (Except.ok [Except.ok (⟨"a.codexpolicy", some "codexpolicy", true⟩ : DirEntry)])
        (fun _ => Except.error ()) () (fun st _ _ => Except.ok st)
        (fun _ => ⟨fun _ => Evaluation.NoMatch⟩)
      = .error e :=
  (C8_fail_closed_loading "home"
      [Except.ok (⟨"a.codexpolicy", some "codexpolicy", true⟩ : DirEntry)]
      ["a.codexpolicy"]
      (fun _ => Except.error ()) () (fun st _ _ => Except.ok st)
      (fun _ => ⟨fun _ => Evaluation.NoMatch⟩) rfl).1
    ⟨"a.codexpolicy", by simp, rfl⟩

/-- C9: loading is deterministic in the directory listing order: two listings
that are permutations of each other (the same set of directory entries,
enumerated in any order) produce identical load results, because the
collected paths are sorted lexicographically before parsing. -/
theorem C9_deterministic_loading {σ : Type} (feat : Bool) (home : String)
    (entries1 entries2 : List (Except Unit DirEntry))
    (h : entries1.Perm entries2) (r : String → Except Unit String) (pnew : σ)
    (parse : σ → String → String → Except String σ) (build : σ → Policy) :
    exec_policy_for feat home (.ok entries1) r pnew parse build
      = exec_policy_for feat home (.ok entries2) r pnew parse build := by
  cases feat with
  | false => rfl
  | true =>
    show (match collect_policy_paths entries1 with
          | .error _ => Except.error (ExecPolicyError.ReadDir home)
          | .ok policy_paths => load_from_paths r parse pnew build policy_paths)
        = match collect_policy_paths entries2 with
          | .error _ => Except.error (ExecPolicyError.ReadDir home)
          | .ok policy_paths => load_from_paths r parse pnew build policy_paths
    rw [collect_policy_paths_eq entries1, collect_policy_paths_eq entries2,
      any_eq_of_perm h entryFailed]
    by_cases hfail : entries2.any entryFailed = true
    · rw [if_pos hfail, if_pos hfail]
    · rw [if_neg hfail, if_neg hfail]
      exact load_from_paths_perm r parse pnew build (h.filterMap selectPolicyPath)

/-- C9 witness: two concrete listings of the same two entries in opposite
orders load identically. -/
theorem C9_deterministic_loading_witness :
    exec_policy_for true "home"
        (Except.ok [Except.ok (⟨"b.codexpolicy", some "codexpolicy", true⟩ : DirEntry),
          Except.ok (⟨"a.codexpolicy", some "codexpolicy", true⟩ : DirEntry)])
        (fun _ => Except.ok "") () (fun st _ _ => Except.ok st)
        (fun _ => ⟨fun _ => Evaluation.NoMatch⟩)
      = exec_policy_for true "home"
        (Except.ok [Except.ok (⟨"a.codexpolicy", some "codexpolicy", true⟩ : DirEntry),
          Except.ok (⟨"b.codexpolicy", some "codexpolicy", true⟩ : DirEntry)])
        (fun _ => Except.ok "") () (fun st _ _ => Except.ok st)
        (fun _ => ⟨fun _ => Evaluation.NoMatch⟩) :=
  C9_deterministic_loading true "home"
    [Except.ok (⟨"b.codexpolicy", some "codexpolicy", true⟩ : DirEntry),
     Except.ok (⟨"a.codexpolicy", some "codexpolicy", true⟩ : DirEntry)]
    [Except.ok (⟨"a.codexpolicy", some "codexpolicy", true⟩ : DirEntry),
     Except.ok (⟨"b.codexpolicy", some "codexpolicy", true⟩ : DirEntry)]
    (List.Perm.swap _ _ _) (fun _ => Except.ok "") () (fun st _ _ => Except.ok st)
    (fun _ => ⟨fun _ => Evaluation.NoMatch⟩)

/-- C10: absence is not an error — with the feature disabled the loader
returns `Ok(None)`, with a missing policy directory it returns `Ok(None)` —
and the collection loop selects exactly the regular files whose extension is
exactly `codexpolicy`, silently ignoring every other entry. -/
theorem C10_absence_and_selection {σ : Type} (home : String)
    (rd : Except DirError (List (Except Unit DirEntry)))
    (r : String → Except Unit String) (pnew : σ)
    (parse : σ → String → String → Except String σ) (build : σ → Policy) :
    exec_policy_for false home rd r pnew parse build = .ok none ∧
    exec_policy_for true home (.error .NotFound) r pnew parse build = .ok none ∧
    (∀ entries paths p, collect_policy_paths entries = .ok paths →
      (p ∈ paths ↔ ∃ en : DirEntry, Except.ok en ∈ entries ∧ en.path = p ∧
        en.ext = some "codexpolicy" ∧ en.isFile = true)) := by
  refine ⟨rfl, rfl, ?_⟩
  intro entries paths p hc
  rw [collect_policy_paths_eq] at hc
  by_cases hfail : entries.any entryFailed = true
  · rw [if_pos hfail] at hc
    exact absurd hc (by simp)
  · rw [if_neg hfail] at hc
    simp only [Except.ok.injEq] at hc
    subst hc
    rw [List.mem_filterMap]
    constructor
    · rintro ⟨e, he, hsel⟩
      cases e with
      | error u =>
        cases u
        exact absurd hsel (by simp [selectPolicyPath])
      | ok en =>
        rw [selectPolicyPath_ok] at hsel
        by_cases hq : (en.ext == some "codexpolicy" && en.isFile) = true
        · rw [if_pos hq] at hsel
          simp only [Option.some.injEq] at hsel
          obtain ⟨h1, h2⟩ := Bool.and_eq_true_iff.mp hq
          exact ⟨en, he, hsel, by simpa using h1, h2⟩
        · rw [if_neg hq] at hsel
          exact absurd hsel (by simp)
    · rintro ⟨en, hen, hpath, hext, hfile⟩
      refine ⟨.ok en, hen, ?_⟩
      rw [selectPolicyPath_ok, if_pos (by simp [hext, hfile]), hpath]

/-- C10 witness: in a listing holding one `codexpolicy` regular file and one
`txt` file, exactly the former's path is selected. -/
theorem C10_absence_and_selection_witness :
    "a.codexpolicy" ∈ ["a.codexpolicy"] ↔
      ∃ en : DirEntry,
        (Except.ok en : Except Unit DirEntry) ∈
          ([Except.ok ⟨"a.codexpolicy", some "codexpolicy", true⟩,
            Except.ok ⟨"notes.txt", some "txt", true⟩] :
            List (Except Unit DirEntry)) ∧
        en.path = "a.codexpolicy" ∧ en.ext = some "codexpolicy" ∧
        en.isFile = true :=
  (C10_absence_and_selection "home" (Except.ok []) (fun _ => Except.ok "") ()
      (fun st _ _ => Except.ok st) (fun _ => ⟨fun _ => Evaluation.NoMatch⟩)).2.2
    ([Except.ok ⟨"a.codexpolicy", some "codexpolicy", true⟩,
      Except.ok ⟨"notes.txt", some "txt", true⟩] :
      List (Except Unit DirEntry))
    ["a.codexpolicy"] "a.codexpolicy" rfl

end ExecPolicy
